import Mathlib

/-!
Verification development for the `read_dbc_file` CAN-message REPL
(`src/main.py`). The handler keeps a read-only signal database `db`
(loaded from a `.dbc` file by the external `cantools` library) and a
mutable overlay `modified_messages : message frame id → (signal name →
raw value)`. Commands set raw or physical signal values, and listings
merge the overlay onto default payload bytes.

Python dicts are modelled as association lists with update-in-place /
append-if-new semantics (`setEntry`), which preserves insertion order
exactly as Python dicts do. Machine integers are `Int`/`Nat`; Python
floats are modelled as `ℚ` (the scale/offset arithmetic of the claims
is exact in ℚ at every input considered here).
-/

namespace ReadDbc

/-- A Python-dict write `d[k] = v` on an association list: update the
first entry with key `k` in place, else append `(k, v)` at the end. -/
def setEntry {α β : Type} [BEq α] : List (α × β) → α → β → List (α × β)
  | [], k, v => [(k, v)]
  | (k0, v0) :: rest, k, v =>
    if k0 == k then (k, v) :: rest else (k0, v0) :: setEntry rest k v

/-- Byte order of a signal (cantools `LITTLE_ENDIAN` / `BIG_ENDIAN`). -/
inductive ByteOrder where
  | little : ByteOrder
  | big : ByteOrder
deriving DecidableEq

/-- A cantools signal descriptor, as used by `main.py`: `name`, global
bit `start`, bit `length`, `scale`, `offset`, `byte_order`, and the
optional `choices` dict (raw value → label; `None`/`{}` are both `[]`). -/
structure Signal where
  name : String
  start : Nat
  length : Nat
  scale : ℚ
  offset : ℚ
  byte_order : ByteOrder
  choices : List (Int × String)
deriving DecidableEq

/-- A cantools message descriptor: `frame_id`, `name`, byte `length`,
and the ordered list of signals. -/
structure Message where
  frame_id : Nat
  name : String
  length : Nat
  signals : List Signal
deriving DecidableEq

/-- The loaded database: the ordered list `db.messages`. -/
structure Database where
  messages : List Message
deriving DecidableEq

/-- The state of `CANMessageHandler`: the read-only database `db` and
the overlay dict `modified_messages : Dict[int, Dict[str, int]]`. -/
structure Handler where
  db : Database
  modified_messages : List (Nat × List (String × Int))
deriving DecidableEq

/-- `CANMessageHandler.find_message_by_signal`: scan `db.messages` in
order, return the name of the first message that has a signal named
`signal_name`, else `None`. -/
def find_message_by_signal (db : Database) (signal_name : String) : Option String :=
  (db.messages.find? (fun message =>
    message.signals.any (fun signal => signal.name == signal_name))).map Message.name

/-- cantools `db.get_message_by_name` (external collaborator): first
message with the given name. -/
def get_message_by_name (db : Database) (name : String) : Option Message :=
  db.messages.find? (fun message => message.name == name)

/-- Result of `get_signal_display_value`, keeping the semantic content
of the formatted string: the raw integer together with either the
choice label or the scaled physical value. -/
inductive DisplayValue where
  | choice (raw : Int) (label : String) : DisplayValue
  | scaled (raw : Int) (physical : ℚ) : DisplayValue
deriving DecidableEq

/-- `CANMessageHandler.get_signal_display_value`: if `signal.choices`
is truthy and `value` is one of its keys, show the label; otherwise
show `value * signal.scale + signal.offset`. -/
def get_signal_display_value (signal : Signal) (value : Int) : DisplayValue :=
  if signal.choices ≠ [] ∧ (signal.choices.lookup value).isSome then
    DisplayValue.choice value ((signal.choices.lookup value).getD "")
  else
    DisplayValue.scaled value ((value : ℚ) * signal.scale + signal.offset)

/-- Python `int()` truncation toward zero on an exact rational. -/
def pyTrunc (q : ℚ) : Int :=
  if 0 ≤ q then ⌊q⌋ else ⌈q⌉

/-- The overlay write shared by both update methods:
`if frame_id not in modified_messages: modified_messages[frame_id] = {}`
followed by `modified_messages[frame_id][signal_name] = raw_value`. -/
def setOverlay (h : Handler) (frame_id : Nat) (signal_name : String)
    (raw_value : Int) : Handler :=
  let entry := (h.modified_messages.lookup frame_id).getD []
  { h with modified_messages :=
      setEntry h.modified_messages frame_id (setEntry entry signal_name raw_value) }

/-- `CANMessageHandler.update_signal_raw_value`: resolve the signal by
name, range-check `raw_value` against `(1 << signal.length) - 1`, and
only then write the overlay. Returns the Python `bool` result together
with the post state (printing is ignored). -/
def update_signal_raw_value (h : Handler) (signal_name : String)
    (raw_value : Int) : Bool × Handler :=
  match find_message_by_signal h.db signal_name with
  | none => (false, h)
  | some message_name =>
    match get_message_by_name h.db message_name with
    | none => (false, h)
    | some message =>
      match message.signals.find? (fun s => s.name == signal_name) with
      | none => (false, h)
      | some signal =>
        let max_value : Int := ((1 <<< signal.length : Nat) : Int) - 1
        if raw_value < 0 ∨ raw_value > max_value then (false, h)
        else (true, setOverlay h message.frame_id signal_name raw_value)

/-- `CANMessageHandler.update_signal_value`: same resolution, but the
raw value is `int((value - signal.offset) / signal.scale)` — Python
`int()` truncates toward zero. -/
def update_signal_value (h : Handler) (signal_name : String)
    (value : ℚ) : Bool × Handler :=
  match find_message_by_signal h.db signal_name with
  | none => (false, h)
  | some message_name =>
    match get_message_by_name h.db message_name with
    | none => (false, h)
    | some message =>
      match message.signals.find? (fun s => s.name == signal_name) with
      | none => (false, h)
      | some signal =>
        let raw_value : Int := pyTrunc ((value - signal.offset) / signal.scale)
        let max_value : Int := ((1 <<< signal.length : Nat) : Int) - 1
        if raw_value < 0 ∨ raw_value > max_value then (false, h)
        else (true, setOverlay h message.frame_id signal_name raw_value)

/-- The branch of `print_modified_messages` that decides whether the
listing reports `No messages have been modified yet.`. -/
def modified_listing_empty (h : Handler) : Bool :=
  h.modified_messages.isEmpty

/-- Python `{**default_data, **modified_signals}`: keys of the first
dict in order with values overridden by the second, then the second
dict's new keys in order. -/
def mergeDicts {α β : Type} [BEq α] (a b : List (α × β)) : List (α × β) :=
  (a.map (fun kv =>
    match b.lookup kv.1 with
    | some v => (kv.1, v)
    | none => kv)) ++ b.filter (fun kv => (a.lookup kv.1).isNone)

/-- One byte-sized slice of the shifted value: bits `[i*8, i*8+8)` of
`value <<< bit_in_byte`. -/
def fieldSlice (value bit_in_byte i : Nat) : Nat :=
  ((value <<< bit_in_byte) >>> (i * 8)) % 256

/-- The mask of field bits falling in slice `i`: bits `[i*8, i*8+8)` of
`(2^bit_length - 1) <<< bit_in_byte`. -/
def fieldMask (bit_in_byte bit_length i : Nat) : Nat :=
  (((2 ^ bit_length - 1) <<< bit_in_byte) >>> (i * 8)) % 256

/-- Writing slice `i` into a byte: clear the mask bits of the old
byte, then OR in the slice. -/
def placeByte (old value bit_in_byte bit_length i : Nat) : Nat :=
  (old &&& (255 ^^^ fieldMask bit_in_byte bit_length i)) ||| fieldSlice value bit_in_byte i

/-- Modelled from the spec: the BitField Codec `place` operation is not
in `src/` (placement in `main.py` is delegated to the external cantools
`encode_message`); §4.1 describes it per byte. With `start_byte =
bit_start / 8`, `bit_in_byte = bit_start % 8`, and `span =
ceil((bit_in_byte + bit_length) / 8)`: for LITTLE order, span byte `i`
receives bits `[i*8, i*8+8)` of `value <<< bit_in_byte` at
`buffer[start_byte + i]` after clearing the corresponding mask bits;
for BIG order the same slice is written at
`buffer[start_byte + span - 1 - i]`. -/
def place (buffer : List Nat) (bit_start bit_length value : Nat)
    (order : ByteOrder) : List Nat :=
  let start_byte := bit_start / 8
  let bit_in_byte := bit_start % 8
  let span := (bit_in_byte + bit_length + 7) / 8
  (List.range buffer.length).map (fun idx =>
    if start_byte ≤ idx ∧ idx < start_byte + span then
      let i := match order with
        | ByteOrder.little => idx - start_byte
        | ByteOrder.big => start_byte + span - 1 - idx
      placeByte (buffer.getD idx 0) value bit_in_byte bit_length i
    else buffer.getD idx 0)

/-- The accumulation of the bit loop in
`CANMessageHandler.get_signal_value`: after `len` iterations,
`value |= ((data[start_byte + (bit_in_byte+i)//8] >> ((bit_in_byte+i)%8)) & 1) << i`
for each `i < len`. -/
def extractAux (data : List Nat) (start_byte bit_in_byte : Nat) : Nat → Nat
  | 0 => 0
  | i + 1 =>
    extractAux data start_byte bit_in_byte i |||
      ((((data.getD (start_byte + (bit_in_byte + i) / 8) 0) >>>
          ((bit_in_byte + i) % 8)) &&& 1) <<< i)

/-- The bit loop of `CANMessageHandler.get_signal_value` (lines
133-139): extract `length` bits starting at global bit `start`. Note:
it traverses bytes in LITTLE order only and never looks at the
signal's `byte_order`. -/
def extract_bits (data : List Nat) (start length : Nat) : Nat :=
  extractAux data (start / 8) (start % 8) length

/-- `CANMessageHandler.get_signal_value`: `None` when `message_id` has
no overlay entry; otherwise encode the overlay entry (external
cantools `encode_message`, abstracted as the `encode` argument) and run
the bit loop on the resulting bytes. -/
def get_signal_value (encode : Nat → List (String × Int) → List Nat)
    (h : Handler) (message_id : Nat) (signal : Signal) : Option Nat :=
  match h.modified_messages.lookup message_id with
  | some modified_signals =>
    some (extract_bits (encode message_id modified_signals) signal.start signal.length)
  | none => none

/-- Python `str.split()` with no argument: split on whitespace runs,
dropping empty pieces. -/
def pyTokens (s : String) : List String :=
  (s.split (fun c => c.isWhitespace)).filter (fun t => t ≠ "")

/-- Value of a decimal digit character. -/
def decDigit (c : Char) : Option Nat :=
  if c.isDigit then some (c.toNat - 48) else none

/-- Fold decimal digits left to right. -/
def decDigitsAux : List Char → Nat → Option Nat
  | [], acc => some acc
  | c :: rest, acc =>
    match decDigit c with
    | some d => decDigitsAux rest (acc * 10 + d)
    | none => none

/-- A nonempty all-decimal-digit string as a `Nat`. -/
def decNat (l : List Char) : Option Nat :=
  if l.isEmpty then none else decDigitsAux l 0

/-- Value of a lowercase hexadecimal digit character. -/
def hexDigit (c : Char) : Option Nat :=
  if c.isDigit then some (c.toNat - 48)
  else if 97 ≤ c.toNat ∧ c.toNat ≤ 102 then some (c.toNat - 87)
  else none

/-- Fold lowercase hex digits left to right. -/
def hexDigitsAux : List Char → Nat → Option Nat
  | [], acc => some acc
  | c :: rest, acc =>
    match hexDigit c with
    | some d => hexDigitsAux rest (acc * 16 + d)
    | none => none

/-- A nonempty all-hex-digit string as a `Nat`. -/
def hexNat (l : List Char) : Option Nat :=
  if l.isEmpty then none else hexDigitsAux l 0

/-- The numeric-literal parsing of `handle_input`: Python
`int(value_str, 16)` when `value_str.lower().startswith('0x')`, else
`int(value_str)` (an optional leading minus followed by decimal
digits); `none` models the `ValueError` path. -/
def pyParseInt (s : String) : Option Int :=
  if (s.toLower.startsWith "0x") then
    (hexNat (s.toLower.toList.drop 2)).map Int.ofNat
  else
    match s.toList with
    | '-' :: rest => (decNat rest).map (fun n => -(n : Int))
    | l => (decNat l).map Int.ofNat

/-- `CANMessageHandler.handle_input`, state effect only (all printing
dropped): `A`, `L` and `S <query>` are display commands; a two-token
line sets a raw value; a three-token line sets a physical value when
its first token is `V` (case-insensitive); any `ValueError` from
numeric parsing is caught and leaves the state alone. -/
def handle_input (h : Handler) (user_input : String) : Handler :=
  if user_input.toUpper == "A" then h
  else if user_input.toUpper == "L" then h
  else if user_input.toUpper.startsWith "S " then h
  else
    match pyTokens user_input with
    | [signal_name, value_str] =>
      match pyParseInt value_str with
      | some value => (update_signal_raw_value h signal_name value).2
      | none => h
    | [command, signal_name, value_str] =>
      match pyParseInt value_str with
      | some value =>
        if command.toUpper == "V" then (update_signal_value h signal_name (value : ℚ)).2
        else h
      | none => h
    | _ => h

/-- The signal descriptor the two update methods resolve for a name:
first message containing the name, re-fetched by message name, then
the first signal of that message with the name. -/
def resolvedSignal (db : Database) (name : String) : Option Signal :=
  match find_message_by_signal db name with
  | none => none
  | some message_name =>
    match get_message_by_name db message_name with
    | none => none
    | some message => message.signals.find? (fun s => s.name == name)

/-- Test fixture: the spec §8 scenario signal `SPEED` (`bit_start 8`,
`bit_length 8`, `scale 0.5`, `offset 0`, LITTLE order, no choices). -/
def sigSPEED : Signal :=
  { name := "SPEED", start := 8, length := 8, scale := 1/2, offset := 0,
    byte_order := ByteOrder.little, choices := [] }

/-- Test fixture: a message carrying `sigSPEED`. -/
def msgM : Message :=
  { frame_id := 291, name := "M", length := 8, signals := [sigSPEED] }

/-- Test fixture: a fresh handler over the one-message database. -/
def h0 : Handler :=
  { db := { messages := [msgM] }, modified_messages := [] }

/-- Test fixture: a `SPEED` variant with scale 2, where truncation and
rounding of `(physical - offset) / scale` differ. -/
def sigDOUBLE : Signal :=
  { name := "SPEED", start := 8, length := 8, scale := 2, offset := 0,
    byte_order := ByteOrder.little, choices := [] }

/-- Test fixture: a message carrying `sigDOUBLE`. -/
def msgDOUBLE : Message :=
  { frame_id := 291, name := "M", length := 8, signals := [sigDOUBLE] }

/-- Test fixture: a fresh handler over the `sigDOUBLE` database. -/
def hDOUBLE : Handler :=
  { db := { messages := [msgDOUBLE] }, modified_messages := [] }

/-- Test fixture: signal named `DUP` at default layout. -/
def sigDUP : Signal :=
  { name := "DUP", start := 0, length := 4, scale := 1, offset := 0,
    byte_order := ByteOrder.little, choices := [] }

/-- Test fixture: first of two messages sharing the signal name `DUP`. -/
def msgDupA : Message :=
  { frame_id := 1, name := "A_MSG", length := 8, signals := [sigDUP] }

/-- Test fixture: second of two messages sharing the signal name `DUP`. -/
def msgDupB : Message :=
  { frame_id := 2, name := "B_MSG", length := 8, signals := [sigDUP] }

/-- Test fixture: database where two messages define a signal `DUP`. -/
def dbDup : Database :=
  { messages := [msgDupA, msgDupB] }

/-- Test fixture: a signal with a choices table. -/
def sigGEAR : Signal :=
  { name := "GEAR", start := 0, length := 2, scale := 1, offset := 0,
    byte_order := ByteOrder.little, choices := [(1, "DRIVE")] }

/-- Test fixture: a handler whose overlay already has one entry. -/
def hMOD : Handler :=
  { db := { messages := [msgM] }, modified_messages := [(291, [("SPEED", 100)])] }

section Lemmas

variable {α β : Type} [BEq α] [LawfulBEq α]

theorem lookup_setEntry_self (l : List (α × β)) (k : α) (v : β) :
    (setEntry l k v).lookup k = some v := by
  induction l with
  | nil => simp [setEntry, List.lookup]
  | cons kv rest ih =>
    obtain ⟨k0, v0⟩ := kv
    by_cases hk : k0 = k
    · subst hk
      simp [setEntry, List.lookup]
    · have hk' : (k0 == k) = false := by simp [hk]
      have hk'' : (k == k0) = false := by simp [Ne.symm hk]
      simp [setEntry, hk', List.lookup, hk'', ih]

theorem setEntry_setEntry (l : List (α × β)) (k : α) (v w : β) :
    setEntry (setEntry l k v) k w = setEntry l k w := by
  induction l with
  | nil => simp [setEntry]
  | cons kv rest ih =>
    obtain ⟨k0, v0⟩ := kv
    by_cases hk : k0 = k
    · subst hk
      simp [setEntry]
    · have hk' : (k0 == k) = false := by simp [hk]
      simp [setEntry, hk', ih]

end Lemmas

theorem setOverlay_db (h : Handler) (fid : Nat) (name : String) (raw : Int) :
    (setOverlay h fid name raw).db = h.db := rfl

theorem update_signal_raw_value_db (h : Handler) (name : String) (raw : Int) :
    ((update_signal_raw_value h name raw).2).db = h.db := by
  unfold update_signal_raw_value
  repeat' split
  any_goals rfl
  all_goals dsimp only
  all_goals split <;> rfl

theorem update_signal_value_db (h : Handler) (name : String) (p : ℚ) :
    ((update_signal_value h name p).2).db = h.db := by
  unfold update_signal_value
  repeat' split
  any_goals rfl
  all_goals dsimp only
  all_goals split <;> rfl

/-- No message of `db` has a signal named `name` → the scan misses. -/
theorem find_message_by_signal_eq_none (db : Database) (name : String)
    (hnone : ∀ m ∈ db.messages, ∀ s ∈ m.signals, s.name ≠ name) :
    find_message_by_signal db name = none := by
  unfold find_message_by_signal
  rw [Option.map_eq_none', List.find?_eq_none]
  intro m hm
  simp only [List.any_eq_true, beq_iff_eq]
  rintro ⟨s, hs, heq⟩
  exact hnone m hm s hs heq

/-- Claim C9 — Every `handle_input` call leaves the loaded database `db`
unchanged; the only handler state any command can modify is the
overlay `modified_messages`. -/
theorem handle_input_preserves_db (h : Handler) (user_input : String) :
    (handle_input h user_input).db = h.db := by
  unfold handle_input
  repeat' split
  any_goals rfl
  · exact update_signal_raw_value_db ..
  · exact update_signal_value_db ..

/-- Claim C6 — `find_message_by_signal` returns `none` exactly when no
message has a signal with the given name, and otherwise the name of
the first message, in database order, containing such a signal. -/
theorem find_message_by_signal_first (db : Database) (name : String) :
    (find_message_by_signal db name = none ↔
      ∀ m ∈ db.messages, ∀ s ∈ m.signals, s.name ≠ name) ∧
    (∀ r, find_message_by_signal db name = some r →
      ∃ l₁ m l₂, db.messages = l₁ ++ m :: l₂ ∧ r = m.name ∧
        (∃ s ∈ m.signals, s.name = name) ∧
        ∀ m' ∈ l₁, ∀ s ∈ m'.signals, s.name ≠ name) := by
  constructor
  · constructor
    · intro hnone m hm s hs
      unfold find_message_by_signal at hnone
      rw [Option.map_eq_none', List.find?_eq_none] at hnone
      have hma := hnone m hm
      simp only [List.any_eq_true, beq_iff_eq, not_exists] at hma
      intro heq
      exact hma s ⟨hs, heq⟩
    · exact fun h2 => find_message_by_signal_eq_none db name h2
  · intro r hr
    unfold find_message_by_signal at hr
    rw [Option.map_eq_some'] at hr
    obtain ⟨m, hm, hrname⟩ := hr
    rw [List.find?_eq_some] at hm
    obtain ⟨hpm, l₁, l₂, hsplit, hprev⟩ := hm
    refine ⟨l₁, m, l₂, hsplit, hrname.symm, ?_, ?_⟩
    · simp only [List.any_eq_true, beq_iff_eq] at hpm
      exact hpm
    · intro m' hm' s hs hname
      have hfa := hprev m' hm'
      simp only [Bool.not_eq_true', List.any_eq_false, beq_iff_eq] at hfa
      exact hfa s hs hname

/-- Claim C7 — `get_signal_display_value` shows the choice label (with the
raw integer) when the raw value is a key of `signal.choices`, and the
scaled physical value `v * scale + offset` (with the raw integer)
otherwise. -/
theorem get_signal_display_value_spec (signal : Signal) (v : Int) :
    (∀ label, signal.choices.lookup v = some label →
      get_signal_display_value signal v = DisplayValue.choice v label) ∧
    (signal.choices.lookup v = none →
      get_signal_display_value signal v =
        DisplayValue.scaled v ((v : ℚ) * signal.scale + signal.offset)) := by
  constructor
  · intro label hlabel
    have hne : signal.choices ≠ [] := by
      intro hnil
      rw [hnil] at hlabel
      simp [List.lookup] at hlabel
    unfold get_signal_display_value
    rw [if_pos ⟨hne, by simp [hlabel]⟩, hlabel]
    rfl
  · intro hnone
    unfold get_signal_display_value
    rw [if_neg]
    intro ⟨_, hsome⟩
    rw [hnone] at hsome
    simp at hsome

/-- Any failure path of `update_signal_raw_value` returns the handler
unchanged. -/
theorem update_signal_raw_value_false (h : Handler) (name : String) (raw : Int)
    (hf : (update_signal_raw_value h name raw).1 = false) :
    (update_signal_raw_value h name raw).2 = h := by
  unfold update_signal_raw_value at hf ⊢
  repeat' split at hf <;> try rfl
  dsimp only at hf ⊢
  split
  · rfl
  · rename_i hc
    rw [if_neg hc] at hf
    simp at hf

/-- Any failure path of `update_signal_value` returns the handler
unchanged. -/
theorem update_signal_value_false (h : Handler) (name : String) (p : ℚ)
    (hf : (update_signal_value h name p).1 = false) :
    (update_signal_value h name p).2 = h := by
  unfold update_signal_value at hf ⊢
  repeat' split at hf <;> try rfl
  dsimp only at hf ⊢
  split
  · rfl
  · rename_i hc
    rw [if_neg hc] at hf
    simp at hf

/-- `Nat.shiftLeft` of one as a power of two, cast to `Int`. -/
theorem one_shiftLeft_cast (n : Nat) :
    ((1 <<< n : Nat) : Int) = 2 ^ n := by
  simp [Nat.shiftLeft_eq]

/-- The raw update fails exactly when the name does not resolve to a
signal or the raw value is outside `[0, 2^bit_length)`. -/
theorem update_signal_raw_value_false_iff (h : Handler) (name : String) (raw : Int) :
    (update_signal_raw_value h name raw).1 = false ↔
      resolvedSignal h.db name = none ∨
        ∃ sig, resolvedSignal h.db name = some sig ∧
          (raw < 0 ∨ (2 : Int) ^ sig.length ≤ raw) := by
  rcases hfind : find_message_by_signal h.db name with _ | mname
  · simp [update_signal_raw_value, resolvedSignal, hfind]
  · rcases hget : get_message_by_name h.db mname with _ | msg
    · simp [update_signal_raw_value, resolvedSignal, hfind, hget]
    · rcases hsig : msg.signals.find? (fun s => s.name == name) with _ | sig
      · simp [update_signal_raw_value, resolvedSignal, hfind, hget, hsig]
      · have hmax := one_shiftLeft_cast sig.length
        obtain ⟨M, hM⟩ : ∃ M : Int, (2 : Int) ^ sig.length = M := ⟨_, rfl⟩
        rw [hM] at hmax
        simp only [update_signal_raw_value, resolvedSignal, hfind, hget, hsig, hM,
          hmax, Option.some.injEq]
        split
        · rename_i hrange
          refine iff_of_true rfl (Or.inr ⟨sig, rfl, by omega⟩)
        · rename_i hrange
          refine iff_of_false (by simp) ?_
          rintro (hnone | ⟨sig2, hsig2, hrange2⟩)
          · exact Option.noConfusion hnone
          · cases hsig2
            exact hrange (by omega)

/-- Claim C2 — every failing set operation (`update_signal_raw_value`
or `update_signal_value` with an unknown signal name, or with a raw
value outside `[0, 2^bit_length)`) returns `False` and leaves the
overlay `modified_messages` entry-for-entry unchanged, so the
modified-messages listing is unaffected; for the raw update, failure
happens exactly on those inputs. -/
theorem failing_set_operation_is_noop (h : Handler) (name : String) (raw : Int) :
    ((update_signal_raw_value h name raw).1 = false ↔
      resolvedSignal h.db name = none ∨
        ∃ sig, resolvedSignal h.db name = some sig ∧
          (raw < 0 ∨ (2 : Int) ^ sig.length ≤ raw)) ∧
    ((update_signal_raw_value h name raw).1 = false →
      (update_signal_raw_value h name raw).2 = h) ∧
    (∀ p : ℚ, (update_signal_value h name p).1 = false →
      (update_signal_value h name p).2 = h) ∧
    ((update_signal_raw_value h name raw).1 = false →
      modified_listing_empty (update_signal_raw_value h name raw).2 =
        modified_listing_empty h) := by
  refine ⟨update_signal_raw_value_false_iff h name raw,
    update_signal_raw_value_false h name raw,
    fun p => update_signal_value_false h name p,
    fun hf => ?_⟩
  rw [update_signal_raw_value_false h name raw hf]

/-- Claim C2 witness — the spec scenario `BOGUS 5`: the name `BOGUS`
is unknown, the update reports failure and the overlay of the fresh
handler is untouched. -/
theorem failing_set_operation_is_noop_witness :
    (update_signal_raw_value h0 "BOGUS" 5).2 = h0 :=
  (failing_set_operation_is_noop h0 "BOGUS" 5).2.1 (by with_unfolding_all decide)

/-- Overwriting the overlay with the same message id and raw value a
second time changes nothing. -/
theorem setOverlay_setOverlay (h : Handler) (fid : Nat) (name : String) (raw : Int) :
    setOverlay (setOverlay h fid name raw) fid name raw = setOverlay h fid name raw := by
  unfold setOverlay
  dsimp only
  rw [lookup_setEntry_self, Option.getD_some, setEntry_setEntry, setEntry_setEntry]

/-- Claim C5 — for a raw-set call that succeeds, calling
`update_signal_raw_value` a second time with the same name and value
returns the same result and the same overlay state, so the merged
payload dict `{**default, **modified}` of every message is also the
same after one call and after two. -/
theorem update_signal_raw_value_idempotent (h : Handler) (name : String) (raw : Int)
    (hsucc : (update_signal_raw_value h name raw).1 = true) :
    update_signal_raw_value (update_signal_raw_value h name raw).2 name raw
      = update_signal_raw_value h name raw ∧
    ∀ (defaults : List (String × Int)) (mid : Nat),
      mergeDicts defaults
        (((update_signal_raw_value (update_signal_raw_value h name raw).2 name
            raw).2.modified_messages.lookup mid).getD [])
      = mergeDicts defaults
        (((update_signal_raw_value h name raw).2.modified_messages.lookup mid).getD []) := by
  rcases hfind : find_message_by_signal h.db name with _ | mname
  · rw [update_signal_raw_value, hfind] at hsucc
    exact absurd hsucc (by simp)
  rcases hget : get_message_by_name h.db mname with _ | msg
  · rw [update_signal_raw_value, hfind] at hsucc
    simp only [hget] at hsucc
    exact absurd hsucc (by simp)
  rcases hsig : msg.signals.find? (fun s => s.name == name) with _ | sig
  · rw [update_signal_raw_value, hfind] at hsucc
    simp only [hget, hsig] at hsucc
    exact absurd hsucc (by simp)
  by_cases hrange : raw < 0 ∨ raw > ((1 <<< sig.length : Nat) : Int) - 1
  · rw [update_signal_raw_value, hfind] at hsucc
    simp only [hget, hsig] at hsucc
    rw [if_pos hrange] at hsucc
    exact absurd hsucc (by simp)
  have hone : update_signal_raw_value h name raw
      = (true, setOverlay h msg.frame_id name raw) := by
    rw [update_signal_raw_value, hfind]
    simp only [hget, hsig]
    rw [if_neg hrange]
  have hdb : (setOverlay h msg.frame_id name raw).db = h.db := rfl
  have htwo : update_signal_raw_value (setOverlay h msg.frame_id name raw) name raw
      = (true, setOverlay (setOverlay h msg.frame_id name raw) msg.frame_id name raw) := by
    rw [update_signal_raw_value, hdb, hfind]
    simp only [hget, hsig]
    rw [if_neg hrange]
  rw [hone]
  simp only [htwo, setOverlay_setOverlay]
  exact ⟨trivial, fun defaults mid => trivial⟩

/-- Claim C5 witness — setting `SPEED` to raw 100 once succeeds, and
a second identical call reproduces the same result and state. -/
theorem update_signal_raw_value_idempotent_witness :
    update_signal_raw_value (update_signal_raw_value h0 "SPEED" 100).2 "SPEED" 100
      = update_signal_raw_value h0 "SPEED" 100 :=
  (update_signal_raw_value_idempotent h0 "SPEED" 100 (by with_unfolding_all decide)).1

/-- Claim C3 counterexample — with `scale = 2`, `offset = 0` and
physical value 3, the code stores raw value `int(1.5) = 1`, while the
claimed `round((physical - offset) / scale)` is 2. -/
theorem update_signal_value_truncates_not_rounds :
    (update_signal_value hDOUBLE "SPEED" 3).2.modified_messages
        = [(291, [("SPEED", (1 : Int))])] ∧
    round ((3 - sigDOUBLE.offset) / sigDOUBLE.scale) = (2 : Int) ∧
    (1 : Int) ≠ 2 := by
  refine ⟨by with_unfolding_all decide, ?_, by decide⟩
  norm_num [sigDOUBLE, round_eq]

/-- Claim C3 (amended) — `update_signal_value` computes the raw value
as `(physical - offset) / scale` truncated toward zero (Python
`int()`), not rounded to nearest; once the signal resolves, it fails
and leaves the state unchanged exactly when that integer lies outside
`[0, 2^bit_length)`, and otherwise stores it. -/
theorem update_signal_value_truncates (h : Handler) (name : String) (p : ℚ)
    (msg : Message) (sig : Signal)
    (_hscale : sig.scale ≠ 0)
    (hfind : find_message_by_signal h.db name = some msg.name)
    (hmsg : get_message_by_name h.db msg.name = some msg)
    (hsig : msg.signals.find? (fun s => s.name == name) = some sig) :
    (0 ≤ pyTrunc ((p - sig.offset) / sig.scale) ∧
        pyTrunc ((p - sig.offset) / sig.scale) < 2 ^ sig.length →
      update_signal_value h name p =
        (true, setOverlay h msg.frame_id name
          (pyTrunc ((p - sig.offset) / sig.scale)))) ∧
    (¬(0 ≤ pyTrunc ((p - sig.offset) / sig.scale) ∧
        pyTrunc ((p - sig.offset) / sig.scale) < 2 ^ sig.length) →
      update_signal_value h name p = (false, h)) := by
  have hmax := one_shiftLeft_cast sig.length
  obtain ⟨M, hM⟩ : ∃ M : Int, (2 : Int) ^ sig.length = M := ⟨_, rfl⟩
  rw [hM] at hmax
  simp only [update_signal_value, hfind, hmsg, hsig, hM, hmax]
  constructor
  · intro hin
    rw [if_neg (by omega)]
  · intro hout
    rw [if_pos (by omega)]

/-- Claim C3 witness — with `scale = 1/2`, `offset = 0`, setting the
physical value 5 stores the truncated raw value `int(10) = 10`. -/
theorem update_signal_value_truncates_witness :
    update_signal_value h0 "SPEED" 5 =
      (true, setOverlay h0 msgM.frame_id "SPEED"
        (pyTrunc ((5 - sigSPEED.offset) / sigSPEED.scale))) :=
  (update_signal_value_truncates h0 "SPEED" 5 msgM sigSPEED
      (by norm_num [sigSPEED]) (by with_unfolding_all decide)
      (by with_unfolding_all decide) (by with_unfolding_all decide)).1
    (by constructor <;> with_unfolding_all decide)

/-- Claim C6 witness — in a database where both messages define a
signal `DUP`, the scan resolves to the first message `A_MSG`. -/
theorem find_message_by_signal_first_witness :
    ∃ l₁ m l₂, dbDup.messages = l₁ ++ m :: l₂ ∧ "A_MSG" = m.name ∧
      (∃ s ∈ m.signals, s.name = "DUP") ∧
      ∀ m' ∈ l₁, ∀ s ∈ m'.signals, s.name ≠ "DUP" :=
  (find_message_by_signal_first dbDup "DUP").2 "A_MSG" (by with_unfolding_all decide)

/-- Claim C7 witness — a raw value present in the choices table is
displayed with its label. -/
theorem get_signal_display_value_spec_witness :
    get_signal_display_value sigGEAR 1 = DisplayValue.choice 1 "DRIVE" :=
  (get_signal_display_value_spec sigGEAR 1).1 "DRIVE" (by with_unfolding_all decide)

/-- Claim C4 counterexample — the input `SPEED 5 LITTLE_ENDIAN` names
a known signal with an in-range value, yet `handle_input` leaves the
handler (and its empty overlay) completely unchanged: no raw value is
set and no per-call endianness override exists. -/
theorem handle_input_no_endianness_override :
    handle_input h0 "SPEED 5 LITTLE_ENDIAN" = h0 ∧
    h0.modified_messages = [] ∧
    (∃ s ∈ msgM.signals, s.name = "SPEED") ∧
    (0 : Int) ≤ 5 ∧ (5 : Int) < 2 ^ sigSPEED.length := by
  refine ⟨by with_unfolding_all decide, rfl,
    ⟨sigSPEED, List.mem_singleton.mpr rfl, rfl⟩, by decide, ?_⟩
  norm_num [sigSPEED]

/-- Claim C4 (amended) — `handle_input` supports no three-token raw
set with an endianness override: any line whose tokens are
`[signal, value, LITTLE_ENDIAN]` or `[signal, value, BIG_ENDIAN]`
fails the numeric parse of its third token (caught as a `ValueError`)
and leaves the handler state unchanged. -/
theorem handle_input_endianness_line_noop (h : Handler)
    (input sig val ord : String)
    (htok : pyTokens input = [sig, val, ord])
    (hord : ord = "LITTLE_ENDIAN" ∨ ord = "BIG_ENDIAN") :
    handle_input h input = h := by
  have hparse : pyParseInt ord = none := by
    rcases hord with rfl | rfl
    · with_unfolding_all decide
    · with_unfolding_all decide
  unfold handle_input
  split
  · rfl
  split
  · rfl
  split
  · rfl
  simp only [htok, hparse]

/-- Claim C4 (amended) witness — the concrete line
`SPEED 5 LITTLE_ENDIAN` on the fresh handler. -/
theorem handle_input_endianness_line_noop_witness :
    handle_input h0 "SPEED 5 LITTLE_ENDIAN" = h0 :=
  handle_input_endianness_line_noop h0 "SPEED 5 LITTLE_ENDIAN" "SPEED" "5"
    "LITTLE_ENDIAN" (by with_unfolding_all decide) (Or.inl rfl)

/-- Claim C10 — command keywords go through `.upper()` but signal
names in both set commands are compared exactly: with a signal-name
token that agrees with a stored signal name only up to case (and
exactly matches none), the raw set and the physical set both report
the signal as not found, and `handle_input` leaves the handler
unchanged on the two-token raw-set line as well as on the three-token
`V` physical-set line (whatever the case of the `V` keyword). -/
theorem signal_name_match_case_sensitive (h : Handler)
    (input input3 cmd sig val : String) (v : Int)
    (htok : pyTokens input = [sig, val])
    (htok3 : pyTokens input3 = [cmd, sig, val])
    (hcmd : cmd.toUpper = "V")
    (hparse : pyParseInt val = some v)
    (_hci : ∃ m ∈ h.db.messages, ∃ s ∈ m.signals, s.name.toUpper = sig.toUpper)
    (hnomatch : ∀ m ∈ h.db.messages, ∀ s ∈ m.signals, s.name ≠ sig) :
    update_signal_raw_value h sig v = (false, h) ∧
    update_signal_value h sig (v : ℚ) = (false, h) ∧
    handle_input h input = h ∧
    handle_input h input3 = h := by
  have hfind := find_message_by_signal_eq_none h.db sig hnomatch
  have hupd : update_signal_raw_value h sig v = (false, h) := by
    rw [update_signal_raw_value, hfind]
  have hupdV : update_signal_value h sig (v : ℚ) = (false, h) := by
    rw [update_signal_value, hfind]
  refine ⟨hupd, hupdV, ?_, ?_⟩
  · unfold handle_input
    split
    · rfl
    split
    · rfl
    split
    · rfl
    simp only [htok, hparse, hupd]
  · unfold handle_input
    split
    · rfl
    split
    · rfl
    split
    · rfl
    rw [htok3]
    simp only [hparse, hcmd]
    simp [hupdV]

/-- Claim C10 witness — `speed` differs from the stored name `SPEED`
only in case: both set operations report not-found, and the handler
is unchanged on the raw-set line `speed 5` and on the physical-set
line `V speed 5`. -/
theorem signal_name_match_case_sensitive_witness :
    update_signal_raw_value h0 "speed" 5 = (false, h0) ∧
    update_signal_value h0 "speed" ((5 : Int) : ℚ) = (false, h0) ∧
    handle_input h0 "speed 5" = h0 ∧
    handle_input h0 "V speed 5" = h0 :=
  signal_name_match_case_sensitive h0 "speed 5" "V speed 5" "V" "speed" "5" 5
    (by with_unfolding_all decide) (by with_unfolding_all decide)
    (by with_unfolding_all decide) (by with_unfolding_all decide)
    ⟨msgM, List.mem_singleton.mpr rfl, sigSPEED, List.mem_singleton.mpr rfl,
      by with_unfolding_all decide⟩
    (by with_unfolding_all decide)

/-- `testBit` of one vanishes above bit zero. -/
theorem testBit_one_pos (m : Nat) (hm : 0 < m) : (1 : Nat).testBit m = false := by
  cases m with
  | zero => omega
  | succ k =>
    rw [Nat.testBit_succ]
    simp

/-- Bit `j` of the extraction accumulator after `len` iterations of
the `get_signal_value` bit loop. -/
theorem extractAux_testBit (data : List Nat) (sb bib len j : Nat) :
    (extractAux data sb bib len).testBit j =
      (decide (j < len) &&
        (data.getD (sb + (bib + j) / 8) 0).testBit ((bib + j) % 8)) := by
  induction len with
  | zero => simp [extractAux]
  | succ n ih =>
    simp only [extractAux]
    rw [Nat.testBit_or, ih, Nat.testBit_shiftLeft]
    rcases Nat.lt_trichotomy j n with hj | hj | hj
    · have e1 : decide (j < n) = true := decide_eq_true hj
      have e2 : decide (j < n + 1) = true := decide_eq_true (by omega)
      have e3 : decide (j ≥ n) = false := decide_eq_false (by omega)
      rw [e1, e2, e3]
      simp
    · rw [hj]
      have e1 : decide (n < n) = false := decide_eq_false (by omega)
      have e2 : decide (n < n + 1) = true := decide_eq_true (by omega)
      have e3 : decide (n ≥ n) = true := decide_eq_true (by omega)
      rw [e1, e2, e3, Nat.sub_self, Nat.testBit_and, Nat.testBit_shiftRight,
        Nat.add_zero]
      simp [Nat.testBit_one_zero]
    · have e1 : decide (j < n) = false := decide_eq_false (by omega)
      have e2 : decide (j < n + 1) = false := decide_eq_false (by omega)
      have e3 : decide (j ≥ n) = true := decide_eq_true (by omega)
      rw [e1, e2, e3, Nat.testBit_and]
      have e4 : (1 : Nat).testBit (j - n) = false := testBit_one_pos _ (by omega)
      rw [e4]
      simp

/-- The value produced by the extraction loop always fits in
`bit_length` bits. -/
theorem extract_bits_lt (data : List Nat) (start len : Nat) :
    extract_bits data start len < 2 ^ len := by
  apply Nat.lt_pow_two_of_testBit
  intro i hi
  rw [extract_bits, extractAux_testBit]
  have e1 : decide (i < len) = false := decide_eq_false (by omega)
  rw [e1, Bool.false_and]

/-- The byte at `idx` after a LITTLE-order `place`: inside the span it
is the placed byte for slice `idx - start_byte`, outside it is
untouched. -/
theorem place_little_getD (buffer : List Nat) (bit_start bit_length value idx : Nat)
    (hidx : idx < buffer.length) :
    (place buffer bit_start bit_length value ByteOrder.little).getD idx 0 =
      if bit_start / 8 ≤ idx ∧
          idx < bit_start / 8 + (bit_start % 8 + bit_length + 7) / 8 then
        placeByte (buffer.getD idx 0) value (bit_start % 8) bit_length
          (idx - bit_start / 8)
      else buffer.getD idx 0 := by
  unfold place
  dsimp only
  rw [List.getD_eq_getElem?_getD, List.getElem?_map, List.getElem?_range hidx,
    Option.map_some', Option.getD_some]

/-- Claim C1 (amended) — for every field with `bit_length ≤ 64` and
every `value < 2^bit_length` placed per the spec rule in LITTLE order
into a large-enough buffer, the `get_signal_value` bit loop recovers
`value`. (The loop does not branch on `byte_order`, so the BIG-order
round trip fails; see the counterexample.) -/
theorem extract_place_roundtrip_little (buffer : List Nat)
    (bit_start bit_length value : Nat)
    (hlen : bit_length ≤ 64)
    (hv : value < 2 ^ bit_length)
    (hbuf : bit_start / 8 + (bit_start % 8 + bit_length + 7) / 8 ≤ buffer.length) :
    extract_bits (place buffer bit_start bit_length value ByteOrder.little)
      bit_start bit_length = value := by
  apply Nat.eq_of_testBit_eq
  intro j
  rw [extract_bits, extractAux_testBit]
  by_cases hj : j < bit_length
  case neg =>
    have e1 : decide (j < bit_length) = false := decide_eq_false hj
    rw [e1, Bool.false_and]
    have hvj : value < 2 ^ j :=
      lt_of_lt_of_le hv (Nat.pow_le_pow_right (by omega) (by omega))
    exact (Nat.testBit_lt_two_pow hvj).symm
  case pos =>
    have e1 : decide (j < bit_length) = true := decide_eq_true hj
    rw [e1, Bool.true_and]
    have hidx : bit_start / 8 + (bit_start % 8 + j) / 8 < buffer.length := by
      omega
    rw [place_little_getD buffer bit_start bit_length value _ hidx]
    rw [if_pos (by constructor <;> omega)]
    have hksub : bit_start / 8 + (bit_start % 8 + j) / 8 - bit_start / 8
        = (bit_start % 8 + j) / 8 := by omega
    rw [hksub]
    unfold placeByte fieldSlice fieldMask
    have h256 : (256 : Nat) = 2 ^ 8 := by norm_num
    have h255 : (255 : Nat) = 2 ^ 8 - 1 := by norm_num
    rw [h256, h255]
    simp only [Nat.testBit_or, Nat.testBit_and, Nat.testBit_xor,
      Nat.testBit_mod_two_pow, Nat.testBit_shiftRight, Nat.testBit_shiftLeft,
      Nat.testBit_two_pow_sub_one]
    have hkp : (bit_start % 8 + j) / 8 * 8 + (bit_start % 8 + j) % 8
        = bit_start % 8 + j := by omega
    rw [hkp]
    have e2 : decide ((bit_start % 8 + j) % 8 < 8) = true :=
      decide_eq_true (by omega)
    have e3 : decide (bit_start % 8 + j ≥ bit_start % 8) = true :=
      decide_eq_true (by omega)
    have e4 : bit_start % 8 + j - bit_start % 8 = j := by omega
    have e5 : decide (j < bit_length) = true := decide_eq_true hj
    rw [e4]
    simp [e2, e3, e5]
    all_goals intros
    all_goals omega

/-- Claim C1 counterexample — place `0xABC` at bit 4, width 12 per the
spec BIG-order rule, then extract with the `get_signal_value` loop:
`0xC0A` comes back instead of `0xABC`, because the loop reads in
LITTLE order regardless of `byte_order`. -/
theorem extract_place_big_mismatch :
    extract_bits (place [0, 0, 0, 0] 4 12 2748 ByteOrder.big) 4 12 = 3082 ∧
    (3082 : Nat) ≠ 2748 :=
  ⟨by decide, by decide⟩

/-- Claim C1 (amended) witness — the same field in LITTLE order round
trips: `0xABC` placed at bit 4, width 12 is extracted unchanged. -/
theorem extract_place_roundtrip_little_witness :
    extract_bits (place [0, 0, 0, 0] 4 12 2748 ByteOrder.little) 4 12 = 2748 :=
  extract_place_roundtrip_little [0, 0, 0, 0] 4 12 2748 (by decide) (by decide)
    (by decide)

/-- Claim C8 — `get_signal_value` returns `None` (the unset indicator,
distinct from raw 0) when the message id has no overlay entry, and
otherwise some integer that lies in `[0, 2^signal.length)` whatever
bytes the encoder produced. -/
theorem get_signal_value_none_or_in_range
    (encode : Nat → List (String × Int) → List Nat)
    (h : Handler) (mid : Nat) (sig : Signal) :
    (h.modified_messages.lookup mid = none →
      get_signal_value encode h mid sig = none) ∧
    (∀ mods, h.modified_messages.lookup mid = some mods →
      ∃ v, get_signal_value encode h mid sig = some v ∧ v < 2 ^ sig.length) := by
  constructor
  · intro hnone
    simp [get_signal_value, hnone]
  · intro mods hmods
    refine ⟨extract_bits (encode mid mods) sig.start sig.length, ?_,
      extract_bits_lt _ _ _⟩
    simp [get_signal_value, hmods]

/-- Claim C8 witness — a handler whose overlay has an entry for
message 291 yields an in-range integer for `SPEED` under a concrete
encoder. -/
theorem get_signal_value_none_or_in_range_witness :
    ∃ v, get_signal_value (fun _ _ => [0, 0, 0, 0, 0, 0, 0, 0]) hMOD 291 sigSPEED
        = some v ∧ v < 2 ^ sigSPEED.length :=
  (get_signal_value_none_or_in_range (fun _ _ => [0, 0, 0, 0, 0, 0, 0, 0])
      hMOD 291 sigSPEED).2 [("SPEED", 100)] (by with_unfolding_all decide)

end ReadDbc
